import Mathlib

/-!
# drone-github-search-downstream: a shallow embedding of `plugin.go`

The plugin searches GitHub for repositories, then for every repository found
polls the Drone server on a one second tick until it can fork a build, an
error is returned or the per-repository timeout fires.

Everything the Go code obtains from outside the process is a field of `World`:
the environment, the file system, the paged GitHub search, the wall clock and
the stream of timer events together with the answers of the Drone server.
Every function returns, next to its result, the ordered list of the remote
calls (and sleeps) it issued.
-/

namespace Downstream

/-! ## Strings -/

/-- Pieces of a character list between occurrences of `sep`; always at least
one piece, as for Go `strings.Split` with a one byte separator. -/
def splitChars (sep : Char) : List Char → List (List Char)
  | [] => [[]]
  | c :: cs =>
    if c = sep then [] :: splitChars sep cs
    else
      match splitChars sep cs with
      | [] => [[c]]
      | part :: parts => (c :: part) :: parts

/-- Go `strings.Split(s, sep)` for a one character separator. -/
def Split (s : String) (sep : Char) : List String :=
  (splitChars sep s.data).map String.mk

/-- Text before and after the first occurrence of `sep`, when there is one. -/
def cutFirst (sep : Char) : List Char → Option (List Char × List Char)
  | [] => none
  | c :: cs =>
    if c = sep then some ([], cs)
    else
      match cutFirst sep cs with
      | none => none
      | some (a, b) => some (c :: a, b)

/-- Go `strings.SplitN(s, sep, 2)` for a one character separator: one piece
when `sep` does not occur, otherwise the text before and after its first
occurrence. -/
def SplitN2 (s : String) (sep : Char) : List String :=
  match cutFirst sep s.data with
  | none => [s]
  | some (a, b) => [String.mk a, String.mk b]

/-- `parseRepoBranch` (plugin.go 154-173): the branch is taken only when the
token splits in exactly two pieces at `@`, owner and name only when the
remaining text splits in exactly two pieces at `/`. -/
def parseRepoBranch (repo : String) : String × String × String :=
  let parts := Split repo '@'
  let branch := if parts.length = 2 then parts.getD 1 "" else ""
  let repo := if parts.length = 2 then parts.getD 0 "" else repo
  let parts := Split repo '/'
  let owner := if parts.length = 2 then parts.getD 0 "" else ""
  let name := if parts.length = 2 then parts.getD 1 "" else ""
  (owner, name, branch)

/-! ## Parameter maps -/

/-- A Go `map[string]string`, kept as the list of its writes, most recent
first; a key is read at its most recent write. -/
abbrev ParamMap := List (String × String)

/-- The assignment `m[k] = v`. -/
def ParamMap.set (m : ParamMap) (k v : String) : ParamMap := (k, v) :: m

/-- The read `m[k]`. -/
def ParamMap.get (m : ParamMap) (k : String) : Option String := List.lookup k m

/-- The loop `for k, v := range file { m[k] = v }`. Go leaves the iteration
order open; the keys of a map are distinct, so every order gives the same
map. -/
def ParamMap.merge (m file : ParamMap) : ParamMap :=
  file.foldr (fun kv acc => ParamMap.set acc kv.1 kv.2) m

/-! ## Data -/

/-- The `Plugin` struct (plugin.go 19-32). `Timeout` is in nanoseconds. -/
structure Plugin where
  Repos : List String
  GithubQuery : String
  GithubToken : String
  DroneServer : String
  DroneToken : String
  Branch : String
  Wait : Bool
  IgnoreMissing : Bool
  Timeout : Int
  LastSuccessful : Bool
  Params : List String
  ParamsEnv : List String
  deriving DecidableEq, Repr

/-- The fields of `drone.Build` that the plugin reads. -/
structure Build where
  Number : Int
  Status : String
  Branch : String
  deriving DecidableEq, Repr

/-- The constant `drone.StatusPending` of drone-go. -/
def StatusPending : String := "pending"

/-- The constant `drone.StatusRunning` of drone-go. -/
def StatusRunning : String := "running"

/-- The constant `drone.StatusSuccess` of drone-go. -/
def StatusSuccess : String := "success"

/-- The fields of `github.Response` that the plugin reads; `Reset` is the
reset time in epoch seconds (`Reset.Local().Unix()`). -/
structure Response where
  Remaining : Int
  Reset : Int
  LastPage : Int
  deriving DecidableEq, Repr

/-- What `client.Search.Repositories` returns: without error the full names
of the repositories of the page and the response; with an error a response
that may be nil. -/
inductive SearchReply where
  | ok (fullNames : List String) (response : Response)
  | fail (response : Option Response)
  deriving DecidableEq, Repr

/-- The answers the Drone server gives to the calls of one tick: `BuildLast`
(`none` for an error), `BuildList` (`none` for an error) and whether
`BuildFork` succeeds. An answer is read only if its call is issued. -/
structure Remote where
  buildLast : Option Build
  buildList : Option (List Build)
  buildFork : Bool
  deriving DecidableEq, Repr

/-- What the `select` of the poll loop receives: the timeout, or a tick. -/
inductive Event where
  | timeout
  | tick (r : Remote)
  deriving DecidableEq, Repr

/-- The outside of the process. `search page` answers the request for a page,
`now page` is the clock (epoch seconds) read by `wait` after that request,
`events` is the sequence of timer events in the order the poll loops receive
them. -/
structure World where
  lookupEnv : String → Option String
  notExist : String → Bool
  readFile : String → Option ParamMap
  search : Int → SearchReply
  now : Int → Int
  events : List Event

/-- Errors of `parseParams`. -/
inductive ParamError where
  | invalid (path : String)
  | read (path : String)
  deriving DecidableEq, Repr

/-- The errors `Exec` returns, one constructor for each message of
plugin.go. -/
inductive Error where
  | noQuery
  | noToken
  | noServer
  | waitAndLastSuccessful
  | badParams (e : ParamError)
  | envNotSet (k : String)
  | badRepo (entry : String)
  | timedOut (entry : String)
  | noLatestBuild (entry : String)
  | noBuildList (entry : String)
  | noLastSuccessful (entry : String)
  | triggerFailed (entry : String)
  deriving DecidableEq, Repr

/-- A call to the Drone server. -/
inductive DroneCall where
  | buildLast (owner name branch : String)
  | buildList (owner name : String)
  | buildFork (owner name : String) (number : Int) (params : ParamMap)
  deriving DecidableEq, Repr

/-- One entry of the trace of a run: a search request for a page, a
`time.Sleep` with its argument in nanoseconds, or a Drone call together with
the index, in `World.events`, of the tick it was issued on. -/
inductive Obs where
  | search (page : Int)
  | sleep (ns : Int)
  | drone (tick : Nat) (c : DroneCall)
  deriving DecidableEq, Repr

/-! ## Rate limit -/

/-- A mathematical integer reduced to the signed 64 bit value Go computes. -/
def wrap64 (x : Int) : Int := (x + 2 ^ 63) % 2 ^ 64 - 2 ^ 63

/-- The constant `time.Second`, in nanoseconds. -/
def Second : Int := 1000000000

/-- `wait` (plugin.go 264-274): the argument handed to `time.Sleep`, or
`none` when `time.Sleep` is not called. `time.Duration` is an int64 count of
nanoseconds. -/
def wait (response : Option Response) (now : Int) : Option Int :=
  match response with
  | none => none
  | some resp =>
    if resp.Remaining ≤ 1 then
      let gap := wrap64 (resp.Reset - now)
      let sleep := wrap64 (gap * Second)
      let sleep := if sleep < 0 then wrap64 (-sleep) else sleep
      some sleep
    else none

/-- The trace left by `wait`. -/
def waitObs (response : Option Response) (now : Int) : List Obs :=
  match wait response now with
  | none => []
  | some ns => [Obs.sleep ns]

/-! ## Repository search -/

/-- The list entry for a repository found by the search (plugin.go
253-256). -/
def repoName (p : Plugin) (fullName : String) : String :=
  if p.Branch.length > 0 then fullName ++ "@" ++ p.Branch else fullName

/-- How `populateGithubRepos` ends: the loop condition fails, `log.Fatal`
ends the process, or the model has no fuel left for a further request. -/
inductive PopStatus where
  | done
  | fatal
  | outOfFuel
  deriving DecidableEq, Repr

/-- Result of `populateGithubRepos`. -/
structure PopResult where
  status : PopStatus
  repos : List String
  trace : List Obs
  deriving DecidableEq, Repr

/-- The loop of `populateGithubRepos` (plugin.go 243-260) from the state
`page`, `maxPage`, `repos`, for at most `fuel` requests. -/
def populateLoop (p : Plugin) (w : World) : Nat → Int → Int → List String → PopResult
  | 0, page, maxPage, repos =>
    if page ≤ maxPage then ⟨.outOfFuel, repos, []⟩ else ⟨.done, repos, []⟩
  | fuel + 1, page, maxPage, repos =>
    if page ≤ maxPage then
      match w.search page with
      | .fail response =>
        ⟨.fatal, repos, Obs.search page :: waitObs response (w.now page)⟩
      | .ok fullNames response =>
        let r := populateLoop p w fuel (page + 1) response.LastPage
          (repos ++ fullNames.map (repoName p))
        ⟨r.status, r.repos,
          Obs.search page :: (waitObs (some response) (w.now page) ++ r.trace)⟩
    else ⟨.done, repos, []⟩

/-- The constant `math.MaxInt32`. -/
def MaxInt32 : Int := 2147483647

/-- `populateGithubRepos` (plugin.go 220-262). -/
def populateGithubRepos (p : Plugin) (w : World) (fuel : Nat) : PopResult :=
  populateLoop p w fuel 1 MaxInt32 p.Repos

/-! ## Parameters -/

/-- The loop of `parseParams` (plugin.go 177-196) over the remaining tokens,
from the map built so far. -/
def parseParamsFrom (w : World) : List String → ParamMap → Except ParamError ParamMap
  | [], params => .ok params
  | tok :: toks, params =>
    let parts := SplitN2 tok '='
    if parts.length = 2 then
      parseParamsFrom w toks (ParamMap.set params (parts.getD 0 "") (parts.getD 1 ""))
    else if w.notExist (parts.getD 0 "") = true then
      .error (.invalid (parts.getD 0 ""))
    else
      match w.readFile (parts.getD 0 "") with
      | none => .error (.read (parts.getD 0 ""))
      | some fileParams => parseParamsFrom w toks (ParamMap.merge params fileParams)

/-- `parseParams` (plugin.go 175-199). -/
def parseParams (w : World) (paramList : List String) : Except ParamError ParamMap :=
  parseParamsFrom w paramList []

/-- The loop over `ParamsEnv` (plugin.go 57-64). -/
def envParams (w : World) : List String → ParamMap → Except Error ParamMap
  | [], params => .ok params
  | k :: ks, params =>
    match w.lookupEnv k with
    | none => .error (.envNotSet k)
    | some v => envParams w ks (ParamMap.set params k v)

/-- The checks at the head of `Exec` (plugin.go 36-50). -/
def validate (p : Plugin) : Option Error :=
  if p.GithubQuery.length = 0 then some .noQuery
  else if p.DroneToken.length = 0 then some .noToken
  else if p.DroneServer.length = 0 then some .noServer
  else if p.Wait = true ∧ p.LastSuccessful = true then some .waitAndLastSuccessful
  else none

/-- The map handed to every `BuildFork` (plugin.go 52-64). -/
def buildParams (p : Plugin) (w : World) : Except Error ParamMap :=
  match parseParams w p.Params with
  | .error e => .error (.badParams e)
  | .ok params => envParams w p.ParamsEnv params

/-! ## The poll loop -/

/-- How the handling of one tick ends: the loop goes to its next iteration
with the given value of `waiting`, `break I`, or `return` of an error. -/
inductive Step where
  | next (waiting : Bool)
  | brk
  | ret (e : Error)
  deriving DecidableEq, Repr

/-- Lines 135-147: the fork of `build`, when it is not running or pending or
`Wait` is off. -/
def forkStage (p : Plugin) (params : ParamMap) (entry owner name : String)
    (waiting : Bool) (r : Remote) (build : Build) : Step × List DroneCall :=
  if (build.Status ≠ StatusRunning ∧ build.Status ≠ StatusPending) ∨ p.Wait = false then
    (if r.buildFork = true then Step.brk
      else if waiting = true then Step.next waiting
      else Step.ret (.triggerFailed entry),
     [DroneCall.buildFork owner name build.Number params])
  else (Step.next waiting, [])

/-- The `case <-tick` of the poll loop (plugin.go 100-147). -/
def onTick (p : Plugin) (params : ParamMap) (entry owner name branch : String)
    (waiting : Bool) (r : Remote) : Step × List DroneCall :=
  match r.buildLast with
  | none =>
    (if waiting = true then Step.next waiting
      else if p.IgnoreMissing = true then Step.brk
      else Step.ret (.noLatestBuild entry),
     [DroneCall.buildLast owner name branch])
  | some build =>
    if p.Wait = true ∧ waiting = false ∧
        (build.Status = StatusRunning ∨ build.Status = StatusPending) then
      (Step.next true, [DroneCall.buildLast owner name branch])
    else if p.LastSuccessful = true ∧ build.Status ≠ StatusSuccess then
      match r.buildList with
      | none =>
        (Step.ret (.noBuildList entry),
         [DroneCall.buildLast owner name branch, DroneCall.buildList owner name])
      | some builds =>
        match builds.find? (fun b => decide (b.Branch = branch ∧ b.Status = StatusSuccess)) with
        | none =>
          (Step.ret (.noLastSuccessful entry),
           [DroneCall.buildLast owner name branch, DroneCall.buildList owner name])
        | some b =>
          let s := forkStage p params entry owner name waiting r b
          (s.1, DroneCall.buildLast owner name branch :: DroneCall.buildList owner name :: s.2)
    else
      let s := forkStage p params entry owner name waiting r build
      (s.1, DroneCall.buildLast owner name branch :: s.2)

/-- How the poll loop of one repository ends: `break I`, `return` of an
error, or still polling when the observed events are used up. -/
inductive Exit where
  | brk
  | ret (e : Error)
  | polling
  deriving DecidableEq, Repr

/-- Result of the poll loop: how it ended, the calls issued, the number of
events received by the process so far and the events not yet received. -/
structure LoopResult where
  exit : Exit
  trace : List Obs
  seen : Nat
  rest : List Event
  deriving DecidableEq, Repr

/-- The labelled loop `I` (plugin.go 94-149) for one repository, from the
state `waiting`, with `seen` events received earlier in the run. -/
def pollLoop (p : Plugin) (params : ParamMap) (entry owner name branch : String) :
    Bool → Nat → List Event → LoopResult
  | _, seen, [] => ⟨.polling, [], seen, []⟩
  | _, seen, .timeout :: rest => ⟨.ret (.timedOut entry), [], seen + 1, rest⟩
  | waiting, seen, .tick r :: rest =>
    match onTick p params entry owner name branch waiting r with
    | (.next waiting2, calls) =>
      let l := pollLoop p params entry owner name branch waiting2 (seen + 1) rest
      ⟨l.exit, calls.map (Obs.drone seen) ++ l.trace, l.seen, l.rest⟩
    | (.brk, calls) => ⟨.brk, calls.map (Obs.drone seen), seen + 1, rest⟩
    | (.ret e, calls) => ⟨.ret e, calls.map (Obs.drone seen), seen + 1, rest⟩

/-! ## Exec -/

/-- How a run ends: `Exec` returns nil, `Exec` returns an error, `log.Fatal`
ends the process during the search, or the run is still going when the
observed events (or the fuel of the search) are used up. -/
inductive Outcome where
  | ok
  | err (e : Error)
  | fatal
  | running
  deriving DecidableEq, Repr

/-- Result of a run: how it ended and the ordered trace of its calls. -/
structure Run where
  outcome : Outcome
  trace : List Obs
  deriving DecidableEq, Repr

/-- The loop over `p.Repos` (plugin.go 79-150), with `seen` events received
so far and `evs` still to come. -/
def runRepos (p : Plugin) (params : ParamMap) : List String → Nat → List Event → Run
  | [], _, _ => ⟨.ok, []⟩
  | entry :: more, seen, evs =>
    let parsed := parseRepoBranch entry
    if parsed.1.length = 0 ∨ parsed.2.1.length = 0 then ⟨.err (.badRepo entry), []⟩
    else
      let l := pollLoop p params entry parsed.1 parsed.2.1 parsed.2.2 false seen evs
      match l.exit with
      | .brk =>
        let r := runRepos p params more l.seen l.rest
        ⟨r.outcome, l.trace ++ r.trace⟩
      | .ret e => ⟨.err e, l.trace⟩
      | .polling => ⟨.running, l.trace⟩

/-- What the run does once the poll loop of the current repository has
produced `l`, with `more` the repositories after it. -/
def resume (p : Plugin) (params : ParamMap) (more : List String) (l : LoopResult) : Run :=
  match l.exit with
  | .brk =>
    let r := runRepos p params more l.seen l.rest
    ⟨r.outcome, l.trace ++ r.trace⟩
  | .ret e => ⟨.err e, l.trace⟩
  | .polling => ⟨.running, l.trace⟩

/-- The run from inside the poll loop of `entry`, with the flag `waiting`,
`seen` events received so far, `evs` still to come and `more` the
repositories after `entry`. -/
def runFrom (p : Plugin) (params : ParamMap) (entry owner name branch : String)
    (more : List String) (waiting : Bool) (seen : Nat) (evs : List Event) : Run :=
  resume p params more (pollLoop p params entry owner name branch waiting seen evs)

/-- `Plugin.Exec` (plugin.go 35-152). `fuel` bounds the number of search
requests the model follows. -/
def Exec (p : Plugin) (w : World) (fuel : Nat) : Run :=
  match validate p with
  | some e => ⟨.err e, []⟩
  | none =>
    match buildParams p w with
    | .error e => ⟨.err e, []⟩
    | .ok params =>
      let found := populateGithubRepos p w fuel
      match found.status with
      | .fatal => ⟨.fatal, found.trace⟩
      | .outOfFuel => ⟨.running, found.trace⟩
      | .done =>
        let r := runRepos p params found.repos 0 w.events
        ⟨r.outcome, found.trace ++ r.trace⟩

/-! ## Definitions used in the statements and their instances -/

def conflictingPlugin : Plugin :=
  { Repos := [], GithubQuery := "topic:ci", GithubToken := "", DroneServer := "https://drone",
    DroneToken := "t", Branch := "", Wait := true, IgnoreMissing := false,
    Timeout := 60000000000, LastSuccessful := true, Params := [], ParamsEnv := [] }

def quietWorld : World :=
  { lookupEnv := fun _ => none, notExist := fun _ => true, readFile := fun _ => none,
    search := fun _ => SearchReply.fail none, now := fun _ => 0, events := [] }

/-- The page numbers of the search requests of a trace, in order. -/
def searchPages (trace : List Obs) : List Int :=
  trace.filterMap (fun o => match o with
    | Obs.search page => some page
    | _ => none)

/-- A search with two pages; the name octo/app is on both. -/
def twoPageWorld : World :=
  { lookupEnv := fun _ => none, notExist := fun _ => true, readFile := fun _ => none,
    search := fun page =>
      SearchReply.ok (if page = 1 then ["octo/app", "octo/lib"] else ["octo/app"]) ⟨30, 0, if page = 1 then 2 else 0⟩,
    now := fun _ => 1700000000, events := [] }

def branchPlugin : Plugin :=
  { Repos := [], GithubQuery := "topic:ci", GithubToken := "", DroneServer := "https://drone",
    DroneToken := "t", Branch := "dev", Wait := false, IgnoreMissing := false,
    Timeout := 60000000000, LastSuccessful := false, Params := [], ParamsEnv := [] }

/-- The value a single `Params` token gives to the key `k`: a KEY=VALUE token
gives VALUE to KEY, a file token gives every key of the file its value. -/
def tokenValue (w : World) (tok k : String) : Option String :=
  let parts := SplitN2 tok '='
  if parts.length = 2 then
    if parts.getD 0 "" = k then some (parts.getD 1 "") else none
  else
    match w.readFile (parts.getD 0 "") with
    | none => none
    | some fileParams => ParamMap.get fileParams k

/-- The value of `k` after the tokens are applied in list order: that of the
last token of the list that gives `k` a value. -/
def lastTokenValue (w : World) : List String → String → Option String
  | [], _ => none
  | tok :: toks, k =>
    match lastTokenValue w toks k with
    | some v => some v
    | none => tokenValue w tok k

/-- The first layer as the specification words it: the map of the literal
KEY=VALUE tokens alone, a later token winning. -/
def literalLayer : List String → ParamMap → ParamMap
  | [], m => m
  | tok :: toks, m =>
    let parts := SplitN2 tok '='
    if parts.length = 2 then
      literalLayer toks (ParamMap.set m (parts.getD 0 "") (parts.getD 1 ""))
    else literalLayer toks m

/-- The second layer as the specification words it: the pairs of the file
tokens alone, a later file winning. -/
def fileLayer (w : World) : List String → ParamMap → ParamMap
  | [], m => m
  | tok :: toks, m =>
    let parts := SplitN2 tok '='
    if parts.length = 2 then fileLayer w toks m
    else
      match w.readFile (parts.getD 0 "") with
      | none => fileLayer w toks m
      | some fileParams => fileLayer w toks (ParamMap.merge m fileParams)

/-- The third layer as the specification words it: every name of `ParamsEnv`
with its environment value. -/
def envLayer (w : World) : List String → ParamMap → ParamMap
  | [], m => m
  | k :: ks, m =>
    match w.lookupEnv k with
    | none => envLayer w ks m
    | some v => envLayer w ks (ParamMap.set m k v)

/-- The three-layer construction of the specification: literal tokens, then
file pairs over them, then environment pairs over both. -/
def layeredParams (p : Plugin) (w : World) : ParamMap :=
  ParamMap.merge (ParamMap.merge (literalLayer p.Params []) (fileLayer w p.Params []))
    (envLayer w p.ParamsEnv [])

/-- A configuration whose file token comes before a literal token for the
same key. -/
def fileThenLiteralPlugin : Plugin :=
  { Repos := [], GithubQuery := "topic:ci", GithubToken := "", DroneServer := "https://drone",
    DroneToken := "t", Branch := "", Wait := false, IgnoreMissing := false,
    Timeout := 60000000000, LastSuccessful := false,
    Params := ["ci.env", "KEY=literal"], ParamsEnv := ["SECRET"] }

/-- A world in which the file ci.env holds KEY=file and SECRET=file, and the
environment sets SECRET. -/
def fileWorld : World :=
  { lookupEnv := fun k => if k = "SECRET" then some "env" else none,
    notExist := fun path => decide (path ≠ "ci.env"),
    readFile := fun path =>
      if path = "ci.env" then some [("KEY", "file"), ("SECRET", "file")] else none,
    search := fun _ => SearchReply.fail none, now := fun _ => 0, events := [] }

/-- A configuration in LastSuccessful mode. -/
def lastSuccessfulPlugin : Plugin :=
  { Repos := [], GithubQuery := "topic:ci", GithubToken := "", DroneServer := "https://drone",
    DroneToken := "t", Branch := "dev", Wait := false, IgnoreMissing := false,
    Timeout := 60000000000, LastSuccessful := true, Params := [], ParamsEnv := [] }

/-- A build history whose first successful build, number 7, is on another
branch than the first successful build of branch dev, number 9. -/
def mixedHistory : List Build :=
  [⟨5, "failure", "dev"⟩, ⟨7, "success", "master"⟩, ⟨9, "success", "dev"⟩]

/-- A tick on which the latest build has failed, the history is
`mixedHistory` and the fork succeeds. -/
def failedLatestTick : Remote :=
  { buildLast := some ⟨10, "failure", "dev"⟩, buildList := some mixedHistory, buildFork := true }

/-- The build numbers of the BuildFork calls a trace issues on tick `i`. -/
def forksAt (i : Nat) (trace : List Obs) : List Int :=
  trace.filterMap (fun o => match o with
    | Obs.drone j (DroneCall.buildFork _ _ number _) => if j = i then some number else none
    | _ => none)

/-- A configuration in Wait mode. -/
def waitPlugin : Plugin :=
  { Repos := [], GithubQuery := "topic:ci", GithubToken := "", DroneServer := "https://drone",
    DroneToken := "t", Branch := "", Wait := true, IgnoreMissing := false,
    Timeout := 60000000000, LastSuccessful := false, Params := [], ParamsEnv := [] }

/-- A configuration that tolerates a missing latest build. -/
def ignoreMissingPlugin : Plugin :=
  { Repos := [], GithubQuery := "topic:ci", GithubToken := "", DroneServer := "https://drone",
    DroneToken := "t", Branch := "", Wait := false, IgnoreMissing := true,
    Timeout := 60000000000, LastSuccessful := false, Params := [], ParamsEnv := [] }

/-- A tick on which the latest build, number 12, is still running. -/
def runningTick : Remote :=
  { buildLast := some ⟨12, "running", "master"⟩, buildList := none, buildFork := true }

/-- A tick on which the latest build, number 12, has succeeded and the fork
succeeds. -/
def successTick : Remote :=
  { buildLast := some ⟨12, "success", "master"⟩, buildList := none, buildFork := true }

/-- A tick on which the latest build, number 12, has succeeded and the fork
fails. -/
def forkFailsTick : Remote :=
  { buildLast := some ⟨12, "success", "master"⟩, buildList := none, buildFork := false }

/-- A tick on which BuildLast fails. -/
def lookupFailsTick : Remote :=
  { buildLast := none, buildList := none, buildFork := true }

/-- A world whose search finds octo/app on a single page and whose ticks
observe running, running, success. -/
def waitWorld : World :=
  { lookupEnv := fun _ => none, notExist := fun _ => true, readFile := fun _ => none,
    search := fun _ => SearchReply.ok ["octo/app"] ⟨30, 0, 0⟩, now := fun _ => 1700000000,
    events := [Event.tick runningTick, Event.tick runningTick, Event.tick successTick] }

/-- The response that comes with a search reply, nil only for some errors. -/
def SearchReply.response : SearchReply → Option Response
  | SearchReply.ok _ response => some response
  | SearchReply.fail response => response

/-- A search of two pages whose first response reports no remaining quota
and a reset time 60 seconds after the clock. -/
def rateLimitedWorld : World :=
  { lookupEnv := fun _ => none, notExist := fun _ => true, readFile := fun _ => none,
    search := fun page =>
      if page = 1 then SearchReply.ok ["octo/app"] ⟨0, 1700000060, 2⟩
      else SearchReply.ok ["octo/lib"] ⟨30, 1700000060, 0⟩,
    now := fun _ => 1700000000, events := [] }

/-! ## Lemmas on strings -/

theorem splitChars_of_not_mem (sep : Char) (s : List Char) (h : sep ∉ s) :
    splitChars sep s = [s] := by
  induction s with
  | nil => rfl
  | cons c cs ih =>
    have hc : c ≠ sep := fun e => h (by simp [e])
    have hcs : sep ∉ cs := fun m => h (List.mem_cons_of_mem _ m)
    simp [splitChars, hc, ih hcs]

theorem splitChars_append (sep : Char) (a b : List Char) (h : sep ∉ a) :
    splitChars sep (a ++ sep :: b) = a :: splitChars sep b := by
  induction a with
  | nil => simp [splitChars]
  | cons c cs ih =>
    have hc : c ≠ sep := fun e => h (by simp [e])
    have hcs : sep ∉ cs := fun m => h (List.mem_cons_of_mem _ m)
    simp [splitChars, hc, ih hcs]

theorem Split_of_not_mem (sep : Char) (s : String) (h : sep ∉ s.data) :
    Split s sep = [s] := by
  simp [Split, splitChars_of_not_mem sep s.data h]

theorem Split_append (sep : Char) (a b : String) (h : sep ∉ a.data) :
    Split (a ++ String.singleton sep ++ b) sep = a :: Split b sep := by
  have e : (a ++ String.singleton sep ++ b).data = a.data ++ sep :: b.data := by
    simp [String.data_append, String.singleton]
  simp [Split, e, splitChars_append sep a.data b.data h]

/-- C1. Every well-formed token is parsed back into its parts: with owner and
name non-empty and free of slash and at-sign, and branch free of at-sign,
owner/name gives (owner, name, empty) and owner/name@branch gives
(owner, name, branch). -/
theorem parseRepoBranch_wellFormed (owner name branch : String)
    (_ho : owner ≠ "") (_hn : name ≠ "")
    (ho1 : '/' ∉ owner.data) (ho2 : '@' ∉ owner.data)
    (hn1 : '/' ∉ name.data) (hn2 : '@' ∉ name.data)
    (hb : '@' ∉ branch.data) :
    parseRepoBranch (owner ++ "/" ++ name) = (owner, name, "") ∧
    parseRepoBranch (owner ++ "/" ++ name ++ "@" ++ branch) = (owner, name, branch) := by
  have hs : ("/" : String) = String.singleton '/' := rfl
  have ha : ("@" : String) = String.singleton '@' := rfl
  have hon : '@' ∉ (owner ++ "/" ++ name).data := by
    simp [String.data_append, ho2, hn2]
  have e1 : Split (owner ++ "/" ++ name) '@' = [owner ++ "/" ++ name] :=
    Split_of_not_mem _ _ hon
  have e2 : Split (owner ++ "/" ++ name) '/' = [owner, name] := by
    rw [hs, Split_append _ _ _ ho1, Split_of_not_mem _ _ hn1]
  have e3 : Split (owner ++ "/" ++ name ++ "@" ++ branch) '@'
      = [owner ++ "/" ++ name, branch] := by
    rw [ha, Split_append _ _ _ hon, Split_of_not_mem _ _ hb]
  constructor
  · simp [parseRepoBranch, e1, e2]
  · simp [parseRepoBranch, e3, e2]

theorem parseRepoBranch_wellFormed_witness :
    parseRepoBranch ("octo" ++ "/" ++ "app") = ("octo", "app", "") ∧
    parseRepoBranch ("octo" ++ "/" ++ "app" ++ "@" ++ "rel/1") = ("octo", "app", "rel/1") :=
  parseRepoBranch_wellFormed "octo" "app" "rel/1" (by decide) (by decide)
    (by decide) (by decide) (by decide) (by decide) (by decide)

/-- C2. A configuration with an empty query, an empty Drone token, an empty
Drone server, or with Wait and LastSuccessful both set makes Exec return an
error with an empty trace: no search request and no Drone call is issued. -/
theorem Exec_validates_before_network (p : Plugin) (w : World) (fuel : Nat)
    (h : p.GithubQuery = "" ∨ p.DroneToken = "" ∨ p.DroneServer = "" ∨
      (p.Wait = true ∧ p.LastSuccessful = true)) :
    ∃ e, Exec p w fuel = ⟨Outcome.err e, []⟩ := by
  have hv : ∃ e, validate p = some e := by
    unfold validate
    rcases h with h | h | h | h
    · simp [h]
    · by_cases h1 : p.GithubQuery.length = 0 <;> simp [h, h1]
    · by_cases h1 : p.GithubQuery.length = 0 <;>
        by_cases h2 : p.DroneToken.length = 0 <;> simp [h, h1, h2]
    · by_cases h1 : p.GithubQuery.length = 0 <;>
        by_cases h2 : p.DroneToken.length = 0 <;>
        by_cases h3 : p.DroneServer.length = 0 <;> simp [h, h1, h2, h3]
  obtain ⟨e, he⟩ := hv
  exact ⟨e, by simp [Exec, he]⟩

theorem Exec_validates_before_network_witness :
    ∃ e, Exec conflictingPlugin quietWorld 5 = ⟨Outcome.err e, []⟩ :=
  Exec_validates_before_network conflictingPlugin quietWorld 5
    (Or.inr (Or.inr (Or.inr ⟨rfl, rfl⟩)))

theorem wrap64_of_range (x : Int) (h1 : -(2 ^ 63) ≤ x) (h2 : x < 2 ^ 63) : wrap64 x = x := by
  unfold wrap64
  rw [Int.emod_eq_of_lt (by omega) (by omega)]
  omega

theorem wait_in_range (resp : Response) (now : Int) (hr : resp.Remaining ≤ 1)
    (hgap : |resp.Reset - now| * Second < 2 ^ 63) :
    wait (some resp) now = some (|resp.Reset - now| * Second) ∧
    0 ≤ |resp.Reset - now| * Second ∧
    resp.Reset * Second ≤ now * Second + |resp.Reset - now| * Second := by
  have habs := abs_nonneg (resp.Reset - now)
  have hle := le_abs_self (resp.Reset - now)
  have hneg := neg_abs_le (resp.Reset - now)
  unfold Second at hgap ⊢
  have hg : wrap64 (resp.Reset - now) = resp.Reset - now :=
    wrap64_of_range _ (by omega) (by omega)
  refine ⟨?_, by omega, by omega⟩
  simp only [wait, hr, if_true, hg, Second]
  rcases abs_cases (resp.Reset - now) with ⟨ha, _⟩ | ⟨ha, _⟩
  · rw [ha] at hgap ⊢
    have hs : wrap64 ((resp.Reset - now) * 1000000000) = (resp.Reset - now) * 1000000000 :=
      wrap64_of_range _ (by omega) (by omega)
    rw [hs, if_neg (by omega)]
  · rw [ha] at hgap ⊢
    have hs : wrap64 ((resp.Reset - now) * 1000000000) = (resp.Reset - now) * 1000000000 :=
      wrap64_of_range _ (by omega) (by omega)
    rw [hs, if_pos (by omega)]
    have hs2 : wrap64 (-((resp.Reset - now) * 1000000000)) = -((resp.Reset - now) * 1000000000) :=
      wrap64_of_range _ (by omega) (by omega)
    rw [hs2]
    congr 1
    ring

theorem wait_above_one (resp : Response) (now : Int) (hr : 1 < resp.Remaining) :
    wait (some resp) now = none := by
  simp [wait, not_le.mpr hr]

/-- C7, counterexample. With Remaining 0, the clock at 1700000000 and a reset
time 10000000000 seconds later, the int64 product of the gap with time.Second
wraps around: wait sleeps 8446744073709551616 ns, which is not |r - n|
seconds and ends before the reset time. -/
theorem wait_overflow_counterexample :
    wait (some ⟨0, 11700000000, 0⟩) 1700000000 = some 8446744073709551616 ∧
    (8446744073709551616 : Int) ≠ |11700000000 - 1700000000| * Second ∧
    1700000000 * Second + 8446744073709551616 < 11700000000 * Second := by
  decide

/-! ## Repository search -/

theorem length_eq_zero_iff {s : String} : s.length = 0 ↔ s = "" := by
  cases s with
  | mk d =>
    constructor
    · intro h
      have : d = [] := List.length_eq_zero.mp h
      subst this
      rfl
    · intro h
      rw [h]
      rfl

theorem searchPages_waitObs (response : Option Response) (now : Int) :
    searchPages (waitObs response now) = [] := by
  unfold waitObs
  cases wait response now <;> rfl

theorem searchPages_append (a b : List Obs) :
    searchPages (a ++ b) = searchPages a ++ searchPages b := by
  simp [searchPages, List.filterMap_append]

theorem searchPages_pages (response : Int → Response) (now : Int → Int) (m n : Nat) :
    searchPages ((List.range' m n).flatMap (fun (i : Nat) =>
      Obs.search ((i : Int) + 1) ::
        waitObs (some (response ((i : Int) + 1))) (now ((i : Int) + 1))))
      = (List.range' m n).map (fun (i : Nat) => (i : Int) + 1) := by
  induction n generalizing m with
  | zero => rfl
  | succ n ih =>
    rw [List.range'_succ, List.flatMap_cons, searchPages_append, ih (m + 1)]
    have h1 : ∀ (pg : Int) (l : List Obs),
        searchPages (Obs.search pg :: l) = pg :: searchPages l := fun _ _ => rfl
    rw [h1, searchPages_waitObs]
    simp

theorem repoName_eq (p : Plugin) (fullName : String) :
    repoName p fullName = if p.Branch = "" then fullName else fullName ++ "@" ++ p.Branch := by
  unfold repoName
  by_cases h : p.Branch = ""
  · simp [h]
  · have : p.Branch.length ≠ 0 := fun e => h (length_eq_zero_iff.mp e)
    simp [h, Nat.pos_of_ne_zero this]

theorem populateLoop_pages (p : Plugin) (w : World) (k : Nat)
    (fullNames : Int → List String) (response : Int → Response)
    (hok : ∀ page : Int, w.search page = SearchReply.ok (fullNames page) (response page))
    (hcont : ∀ j : Nat, 1 ≤ j → j < k → (j : Int) + 1 ≤ (response j).LastPage)
    (hstop : (response k).LastPage < (k : Int) + 1) :
    ∀ (n m fuel : Nat) (maxPage : Int) (repos : List String),
      m + n = k → n ≤ fuel → (1 ≤ n → (m : Int) + 1 ≤ maxPage) →
      (n = 0 → maxPage < (m : Int) + 1) →
      populateLoop p w fuel ((m : Int) + 1) maxPage repos =
        ⟨PopStatus.done,
         repos ++ (List.range' m n).flatMap (fun (i : Nat) => (fullNames ((i : Int) + 1)).map (repoName p)),
         (List.range' m n).flatMap (fun (i : Nat) =>
           Obs.search ((i : Int) + 1) ::
             waitObs (some (response ((i : Int) + 1))) (w.now ((i : Int) + 1)))⟩ := by
  intro n
  induction n with
  | zero =>
    intro m fuel maxPage repos _ _ _ h0
    have hlt : ¬ ((m : Int) + 1 ≤ maxPage) := not_le.mpr (h0 rfl)
    cases fuel <;> simp [populateLoop, hlt]
  | succ n ih =>
    intro m fuel maxPage repos hmk hfuel h1 _
    obtain ⟨fuel, rfl⟩ : ∃ f, fuel = f + 1 := ⟨fuel - 1, by omega⟩
    have hle : (m : Int) + 1 ≤ maxPage := h1 (by omega)
    have hnext := ih (m + 1) fuel (response ((m : Int) + 1)).LastPage
      (repos ++ (fullNames ((m : Int) + 1)).map (repoName p)) (by omega) (by omega)
      (fun hn => by
        have := hcont (m + 1) (by omega) (by omega)
        push_cast at this ⊢
        exact this)
      (fun hn => by
        have hm : m + 1 = k := by omega
        subst hm
        push_cast at hstop ⊢
        exact hstop)
    push_cast at hnext
    simp [populateLoop, hle, hok, hnext, List.range'_succ, List.flatMap_cons, List.append_assoc]

/-- C5. With a search that never fails, whose page k is the first to report a
last page below k + 1, populateGithubRepos requests exactly the pages
1, 2, ..., k in this order and ends with the Repos list extended by the items
of these pages, in page order and in item order within a page, nothing
dropped or merged; an item is written as its full name when Branch is empty
and as fullName@Branch otherwise. The length of the result is the sum of the
page lengths. -/
theorem populateGithubRepos_concat (p : Plugin) (w : World) (k fuel : Nat)
    (fullNames : Int → List String) (response : Int → Response)
    (hok : ∀ page : Int, w.search page = SearchReply.ok (fullNames page) (response page))
    (hk : 1 ≤ k)
    (hcont : ∀ j : Nat, 1 ≤ j → j < k → (j : Int) + 1 ≤ (response j).LastPage)
    (hstop : (response k).LastPage < (k : Int) + 1)
    (hfuel : k ≤ fuel) :
    (populateGithubRepos p w fuel).status = PopStatus.done ∧
    (populateGithubRepos p w fuel).repos =
      p.Repos ++ (List.range k).flatMap (fun (i : Nat) =>
        (fullNames ((i : Int) + 1)).map
          (fun fullName => if p.Branch = "" then fullName else fullName ++ "@" ++ p.Branch)) ∧
    searchPages (populateGithubRepos p w fuel).trace = (List.range k).map (fun (i : Nat) => (i : Int) + 1) ∧
    (populateGithubRepos p w fuel).repos.length =
      p.Repos.length + ((List.range k).map (fun (i : Nat) => (fullNames ((i : Int) + 1)).length)).sum := by
  have hrn : repoName p =
      fun fullName => if p.Branch = "" then fullName else fullName ++ "@" ++ p.Branch :=
    funext (repoName_eq p)
  have h := populateLoop_pages p w k fullNames response hok hcont hstop k 0 fuel MaxInt32 p.Repos
    (by omega) hfuel (fun _ => by simp [MaxInt32]) (fun h0 => by omega)
  have h2 : populateGithubRepos p w fuel = populateLoop p w fuel ((0 : Nat) + 1) MaxInt32 p.Repos := by
    simp [populateGithubRepos]
  rw [h2, h, ← List.range_eq_range', hrn]
  refine ⟨rfl, rfl, ?_, ?_⟩
  · simp only
    rw [List.range_eq_range', searchPages_pages]
  · simp only [List.length_append, List.length_flatMap, List.length_map]
    congr 2
    apply List.map_congr_left
    intro i _
    simp

theorem populateGithubRepos_concat_witness :
    (populateGithubRepos branchPlugin twoPageWorld 2).status = PopStatus.done ∧
    (populateGithubRepos branchPlugin twoPageWorld 2).repos
      = ["octo/app@dev", "octo/lib@dev", "octo/app@dev"] ∧
    searchPages (populateGithubRepos branchPlugin twoPageWorld 2).trace = [1, 2] ∧
    (populateGithubRepos branchPlugin twoPageWorld 2).repos.length = 3 := by
  have h := populateGithubRepos_concat branchPlugin twoPageWorld 2 2
    (fun page => if page = 1 then ["octo/app", "octo/lib"] else ["octo/app"])
    (fun page => ⟨30, 0, if page = 1 then 2 else 0⟩)
    (fun _ => rfl) (by decide)
    (fun j h1 h2 => by
      have : j = 1 := by omega
      subst this
      decide)
    (by decide) (by decide)
  exact ⟨h.1, by decide, by decide, by decide⟩

/-! ## Parameters -/

theorem get_set (m : ParamMap) (k v k2 : String) :
    ParamMap.get (ParamMap.set m k v) k2 = if k2 = k then some v else ParamMap.get m k2 := by
  unfold ParamMap.get ParamMap.set
  rw [List.lookup_cons]
  by_cases h : k2 = k
  · simp [h]
  · have : (k2 == k) = false := by simp [h]
    simp [this, h]

theorem merge_eq_append (m file : ParamMap) : ParamMap.merge m file = file ++ m := by
  unfold ParamMap.merge
  induction file with
  | nil => rfl
  | cons kv rest ih => simp [List.foldr, ih, ParamMap.set]

theorem get_merge (m file : ParamMap) (k : String) :
    ParamMap.get (ParamMap.merge m file) k = (ParamMap.get file k).or (ParamMap.get m k) := by
  rw [merge_eq_append]
  unfold ParamMap.get
  exact List.lookup_append

theorem parseParamsFrom_get (w : World) (toks : List String) :
    ∀ (acc m : ParamMap), parseParamsFrom w toks acc = Except.ok m →
      ∀ k, ParamMap.get m k = (lastTokenValue w toks k).or (ParamMap.get acc k) := by
  induction toks with
  | nil =>
    intro acc m h k
    simp only [parseParamsFrom, Except.ok.injEq] at h
    simp [h, lastTokenValue]
  | cons tok toks ih =>
    intro acc m h k
    rw [parseParamsFrom] at h
    simp only [lastTokenValue, tokenValue]
    generalize (SplitN2 tok '=').getD 0 "" = key at h ⊢
    generalize (SplitN2 tok '=').getD 1 "" = val at h ⊢
    by_cases h2 : (SplitN2 tok '=').length = 2
    · simp only [h2, if_true] at h ⊢
      rw [ih _ _ h k, get_set]
      cases lastTokenValue w toks k with
      | some v => simp
      | none =>
        by_cases hk : k = key
        · simp [hk]
        · have hk2 : ¬ key = k := fun e => hk e.symm
          simp [hk, hk2]
    · simp only [h2, if_false] at h ⊢
      by_cases h3 : w.notExist key = true
      · simp [h3] at h
      · simp only [h3] at h
        cases hf : w.readFile key with
        | none => simp [hf] at h
        | some fileParams =>
          simp only [hf, Bool.false_eq_true, if_false] at h
          rw [ih _ _ h k, get_merge]
          cases lastTokenValue w toks k <;> simp

theorem envParams_get (w : World) (ks : List String) :
    ∀ (acc m : ParamMap), envParams w ks acc = Except.ok m →
      ∀ k, ParamMap.get m k = if k ∈ ks then w.lookupEnv k else ParamMap.get acc k := by
  induction ks with
  | nil =>
    intro acc m h k
    simp only [envParams, Except.ok.injEq] at h
    simp [h]
  | cons k0 ks ih =>
    intro acc m h k
    simp only [envParams] at h
    cases hv : w.lookupEnv k0 with
    | none => simp [hv] at h
    | some v =>
      simp only [hv] at h
      rw [ih _ _ h k, get_set]
      by_cases h1 : k ∈ ks
      · simp [h1]
      · by_cases h2 : k = k0
        · simp [h2, hv]
        · simp [h1, h2]

/-- C6, as the code has it. The map handed to BuildFork has two layers. The
Params tokens are applied in list order, a KEY=VALUE token and a file token
alike overwriting same-named keys of every earlier token, so a key carries
the value of the last token of the list that defines it, literal or file.
Then every name of ParamsEnv is given its environment value, over whatever
the tokens gave it. -/
theorem buildParams_layers (p : Plugin) (w : World) (m : ParamMap)
    (h : buildParams p w = Except.ok m) (k : String) :
    ParamMap.get m k =
      if k ∈ p.ParamsEnv then w.lookupEnv k else lastTokenValue w p.Params k := by
  unfold buildParams at h
  cases hp : parseParams w p.Params with
  | error e => simp [hp] at h
  | ok params =>
    simp only [hp] at h
    rw [envParams_get w _ _ _ h k]
    have := parseParamsFrom_get w p.Params [] params hp k
    rw [this]
    simp [ParamMap.get]

theorem buildParams_layers_witness :
    ParamMap.get [("SECRET", "env"), ("KEY", "literal"), ("KEY", "file"), ("SECRET", "file")] "KEY"
      = if "KEY" ∈ fileThenLiteralPlugin.ParamsEnv then fileWorld.lookupEnv "KEY"
        else lastTokenValue fileWorld fileThenLiteralPlugin.Params "KEY" :=
  buildParams_layers fileThenLiteralPlugin fileWorld
    [("SECRET", "env"), ("KEY", "literal"), ("KEY", "file"), ("SECRET", "file")]
    (by rfl) "KEY"

/-- C6, counterexample. With Params = [ci.env, KEY=literal], the file ci.env
holding KEY=file, the map the code builds gives KEY the literal value, while
the three-layer map of the claim gives it the value of the file. -/
theorem buildParams_not_three_layers :
    (∃ m, buildParams fileThenLiteralPlugin fileWorld = Except.ok m ∧
      ParamMap.get m "KEY" = some "literal") ∧
    ParamMap.get (layeredParams fileThenLiteralPlugin fileWorld) "KEY" = some "file" := by
  refine ⟨⟨[("SECRET", "env"), ("KEY", "literal"), ("KEY", "file"), ("SECRET", "file")],
    by rfl, by decide⟩, by decide⟩

/-! ## The poll loop -/

theorem runRepos_cons (p : Plugin) (params : ParamMap) (entry owner name branch : String)
    (more : List String) (seen : Nat) (evs : List Event)
    (hparse : parseRepoBranch entry = (owner, name, branch))
    (ho : owner ≠ "") (hn : name ≠ "") :
    runRepos p params (entry :: more) seen evs
      = runFrom p params entry owner name branch more false seen evs := by
  have h1 : ¬ owner.length = 0 := fun e => ho (length_eq_zero_iff.mp e)
  have h2 : ¬ name.length = 0 := fun e => hn (length_eq_zero_iff.mp e)
  simp only [runRepos, runFrom, resume, hparse, h1, h2, or_self, if_false]

theorem pollLoop_tick (p : Plugin) (params : ParamMap) (entry owner name branch : String)
    (waiting : Bool) (seen : Nat) (r : Remote) (rest : List Event) :
    pollLoop p params entry owner name branch waiting seen (Event.tick r :: rest) =
      match (onTick p params entry owner name branch waiting r).1 with
      | Step.next waiting2 =>
        ⟨(pollLoop p params entry owner name branch waiting2 (seen + 1) rest).exit,
         (onTick p params entry owner name branch waiting r).2.map (Obs.drone seen) ++
           (pollLoop p params entry owner name branch waiting2 (seen + 1) rest).trace,
         (pollLoop p params entry owner name branch waiting2 (seen + 1) rest).seen,
         (pollLoop p params entry owner name branch waiting2 (seen + 1) rest).rest⟩
      | Step.brk =>
        ⟨Exit.brk, (onTick p params entry owner name branch waiting r).2.map (Obs.drone seen),
         seen + 1, rest⟩
      | Step.ret e =>
        ⟨Exit.ret e, (onTick p params entry owner name branch waiting r).2.map (Obs.drone seen),
         seen + 1, rest⟩ := by
  rw [pollLoop]
  rcases h : onTick p params entry owner name branch waiting r with ⟨s, calls⟩
  cases s <;> rfl

theorem runFrom_tick (p : Plugin) (params : ParamMap) (entry owner name branch : String)
    (more : List String) (waiting : Bool) (seen : Nat) (r : Remote) (rest : List Event) :
    runFrom p params entry owner name branch more waiting seen (Event.tick r :: rest) =
      match (onTick p params entry owner name branch waiting r).1 with
      | Step.next waiting2 =>
        ⟨(runFrom p params entry owner name branch more waiting2 (seen + 1) rest).outcome,
         (onTick p params entry owner name branch waiting r).2.map (Obs.drone seen) ++
           (runFrom p params entry owner name branch more waiting2 (seen + 1) rest).trace⟩
      | Step.brk =>
        ⟨(runRepos p params more (seen + 1) rest).outcome,
         (onTick p params entry owner name branch waiting r).2.map (Obs.drone seen) ++
           (runRepos p params more (seen + 1) rest).trace⟩
      | Step.ret e =>
        ⟨Outcome.err e, (onTick p params entry owner name branch waiting r).2.map (Obs.drone seen)⟩ := by
  unfold runFrom
  rw [pollLoop_tick]
  cases h : (onTick p params entry owner name branch waiting r).1 with
  | next waiting2 =>
    simp only [resume]
    cases (pollLoop p params entry owner name branch waiting2 (seen + 1) rest).exit <;>
      simp [List.append_assoc]
  | brk => simp [resume]
  | ret e => simp [resume]

/-- C9. When BuildLast fails on a tick: if the loop has already waited once,
the tick issues no other call and the run goes on from the same state with
the next event; otherwise, with IgnoreMissing set, the run goes on with the
next repository of the list and the next event, no error and no fork for the
abandoned repository; otherwise the run ends at once with the error
unable to get latest build, and nothing is done for the later
repositories. -/
theorem buildLast_failure_rule (p : Plugin) (params : ParamMap)
    (entry owner name branch : String) (more : List String) (waiting : Bool)
    (seen : Nat) (r : Remote) (rest : List Event) (hr : r.buildLast = none) :
    runFrom p params entry owner name branch more waiting seen (Event.tick r :: rest) =
      if waiting = true then
        ⟨(runFrom p params entry owner name branch more true (seen + 1) rest).outcome,
         Obs.drone seen (DroneCall.buildLast owner name branch) ::
           (runFrom p params entry owner name branch more true (seen + 1) rest).trace⟩
      else if p.IgnoreMissing = true then
        ⟨(runRepos p params more (seen + 1) rest).outcome,
         Obs.drone seen (DroneCall.buildLast owner name branch) ::
           (runRepos p params more (seen + 1) rest).trace⟩
      else
        ⟨Outcome.err (Error.noLatestBuild entry),
         [Obs.drone seen (DroneCall.buildLast owner name branch)]⟩ := by
  rw [runFrom_tick]
  have h : onTick p params entry owner name branch waiting r =
      (if waiting = true then Step.next waiting
        else if p.IgnoreMissing = true then Step.brk
        else Step.ret (.noLatestBuild entry),
       [DroneCall.buildLast owner name branch]) := by
    simp [onTick, hr]
  rw [h]
  cases waiting <;> cases hi : p.IgnoreMissing <;> simp

theorem onTick_not_timedOut (p : Plugin) (params : ParamMap) (entry owner name branch : String)
    (waiting : Bool) (r : Remote) (e : String) :
    (onTick p params entry owner name branch waiting r).1 ≠ Step.ret (Error.timedOut e) := by
  unfold onTick forkStage
  repeat' split
  all_goals simp

theorem pollLoop_timeout_after (p : Plugin) (params : ParamMap) (entry owner name branch : String)
    (post : List Event) (pre : List Event) :
    ∀ (waiting : Bool) (seen : Nat),
      (pollLoop p params entry owner name branch waiting seen pre).exit = Exit.polling →
      pollLoop p params entry owner name branch waiting seen (pre ++ Event.timeout :: post) =
        ⟨Exit.ret (Error.timedOut entry),
         (pollLoop p params entry owner name branch waiting seen pre).trace,
         (pollLoop p params entry owner name branch waiting seen pre).seen + 1, post⟩ := by
  induction pre with
  | nil =>
    intro waiting seen _
    simp [pollLoop]
  | cons ev pre ih =>
    intro waiting seen h
    cases ev with
    | timeout => simp [pollLoop] at h
    | tick r =>
      rw [pollLoop_tick] at h
      rw [List.cons_append, pollLoop_tick, pollLoop_tick]
      cases hs : (onTick p params entry owner name branch waiting r).1 with
      | next waiting2 =>
        simp only [hs] at h ⊢
        rw [ih waiting2 (seen + 1) h]
      | brk => simp [hs] at h
      | ret e => simp [hs] at h

theorem pollLoop_timedOut_split (p : Plugin) (params : ParamMap) (entry owner name branch : String)
    (evs : List Event) :
    ∀ (waiting : Bool) (seen : Nat),
      (pollLoop p params entry owner name branch waiting seen evs).exit
        = Exit.ret (Error.timedOut entry) →
      ∃ pre post, evs = pre ++ Event.timeout :: post ∧
        (pollLoop p params entry owner name branch waiting seen pre).exit = Exit.polling := by
  induction evs with
  | nil =>
    intro waiting seen h
    simp [pollLoop] at h
  | cons ev evs ih =>
    intro waiting seen h
    cases ev with
    | timeout => exact ⟨[], evs, rfl, by simp [pollLoop]⟩
    | tick r =>
      rw [pollLoop_tick] at h
      cases hs : (onTick p params entry owner name branch waiting r).1 with
      | next waiting2 =>
        simp only [hs] at h
        obtain ⟨pre, post, he, hp⟩ := ih waiting2 (seen + 1) h
        refine ⟨Event.tick r :: pre, post, by simp [he], ?_⟩
        rw [pollLoop_tick]
        simp only [hs]
        exact hp
      | brk => simp [hs] at h
      | ret e =>
        simp only [hs, Exit.ret.injEq] at h
        exact absurd (h ▸ hs) (onTick_not_timedOut p params entry owner name branch waiting r entry)

/-- C8. The poll loop of a repository returns the timeout error exactly when
the timeout event arrives while the loop is still polling, that is after a
run of events on which no fork succeeded, no skip and no error was decided.
The run then ends with this error, with the calls issued so far as its whole
trace, whatever the configuration, the waiting flag and the repositories that
come later in the list. -/
theorem timeout_iff_before_decision (p : Plugin) (params : ParamMap)
    (entry owner name branch : String) (more : List String) (waiting : Bool) (seen : Nat)
    (evs : List Event) :
    ((pollLoop p params entry owner name branch waiting seen evs).exit
        = Exit.ret (Error.timedOut entry) ↔
      ∃ pre post, evs = pre ++ Event.timeout :: post ∧
        (pollLoop p params entry owner name branch waiting seen pre).exit = Exit.polling) ∧
    (∀ pre post, evs = pre ++ Event.timeout :: post →
      (pollLoop p params entry owner name branch waiting seen pre).exit = Exit.polling →
      runFrom p params entry owner name branch more waiting seen evs =
        ⟨Outcome.err (Error.timedOut entry),
         (pollLoop p params entry owner name branch waiting seen pre).trace⟩) := by
  refine ⟨⟨pollLoop_timedOut_split p params entry owner name branch evs waiting seen, ?_⟩, ?_⟩
  · rintro ⟨pre, post, rfl, hp⟩
    rw [pollLoop_timeout_after p params entry owner name branch post pre waiting seen hp]
  · rintro pre post rfl hp
    unfold runFrom
    rw [pollLoop_timeout_after p params entry owner name branch post pre waiting seen hp]
    rfl

theorem validate_none_flags (p : Plugin) (hv : validate p = none) :
    ¬ (p.Wait = true ∧ p.LastSuccessful = true) := by
  intro h
  unfold validate at hv
  by_cases h1 : p.GithubQuery.length = 0 <;>
    by_cases h2 : p.DroneToken.length = 0 <;>
    by_cases h3 : p.DroneServer.length = 0 <;> simp [h, h1, h2, h3] at hv

theorem onTick_fork_step (p : Plugin) (params : ParamMap) (entry owner name branch : String)
    (waiting : Bool) (r : Remote)
    (hatt : ∃ num, DroneCall.buildFork owner name num params ∈
      (onTick p params entry owner name branch waiting r).2) :
    (onTick p params entry owner name branch waiting r).1 =
      if r.buildFork = true then Step.brk
      else if waiting = true then Step.next waiting
      else Step.ret (Error.triggerFailed entry) := by
  obtain ⟨num, hatt⟩ := hatt
  revert hatt
  unfold onTick forkStage
  repeat' split
  all_goals simp

theorem onTick_raises_flag (p : Plugin) (params : ParamMap) (entry owner name branch : String)
    (r : Remote) (h : (onTick p params entry owner name branch false r).1 = Step.next true) :
    p.Wait = true := by
  revert h
  unfold onTick forkStage
  repeat' split
  all_goals simp_all

theorem onTick_waiting (p : Plugin) (params : ParamMap) (entry owner name branch : String)
    (r : Remote) (hls : p.LastSuccessful = false) (hw : p.Wait = true) :
    onTick p params entry owner name branch true r =
      match r.buildLast with
      | none => (Step.next true, [DroneCall.buildLast owner name branch])
      | some b =>
        if b.Status ≠ StatusRunning ∧ b.Status ≠ StatusPending then
          (if r.buildFork = true then Step.brk else Step.next true,
           [DroneCall.buildLast owner name branch,
            DroneCall.buildFork owner name b.Number params])
        else (Step.next true, [DroneCall.buildLast owner name branch]) := by
  unfold onTick forkStage
  cases r.buildLast with
  | none => simp
  | some b =>
    by_cases h : b.Status ≠ StatusRunning ∧ b.Status ≠ StatusPending
    · simp [hls, hw, h]
    · simp [hls, hw, h]

theorem pollLoop_waiting_exits (p : Plugin) (params : ParamMap)
    (entry owner name branch : String) (hls : p.LastSuccessful = false) (hw : p.Wait = true)
    (evs : List Event) :
    ∀ seen : Nat,
      (pollLoop p params entry owner name branch true seen evs).exit = Exit.polling ∨
      (pollLoop p params entry owner name branch true seen evs).exit
        = Exit.ret (Error.timedOut entry) ∨
      ((pollLoop p params entry owner name branch true seen evs).exit = Exit.brk ∧
        ∃ pre r post num, evs = pre ++ Event.tick r :: post ∧ r.buildFork = true ∧
          (pollLoop p params entry owner name branch true seen evs).trace.getLast? =
            some (Obs.drone (seen + pre.length) (DroneCall.buildFork owner name num params))) := by
  induction evs with
  | nil => intro seen; left; rfl
  | cons ev evs ih =>
    intro seen
    cases ev with
    | timeout => right; left; rfl
    | tick r =>
      have hcont : (onTick p params entry owner name branch true r).1 = Step.next true →
          (pollLoop p params entry owner name branch true seen (Event.tick r :: evs)).exit
              = Exit.polling ∨
          (pollLoop p params entry owner name branch true seen (Event.tick r :: evs)).exit
              = Exit.ret (Error.timedOut entry) ∨
          ((pollLoop p params entry owner name branch true seen (Event.tick r :: evs)).exit
              = Exit.brk ∧
            ∃ pre r2 post num, Event.tick r :: evs = pre ++ Event.tick r2 :: post ∧
              r2.buildFork = true ∧
              (pollLoop p params entry owner name branch true seen
                (Event.tick r :: evs)).trace.getLast? =
                some (Obs.drone (seen + pre.length)
                  (DroneCall.buildFork owner name num params))) := by
        intro hs
        rw [pollLoop_tick]
        simp only [hs]
        rcases ih (seen + 1) with h | h | ⟨h, pre, r2, post, num, he, hf, hl⟩
        · exact Or.inl h
        · exact Or.inr (Or.inl h)
        · refine Or.inr (Or.inr ⟨h, Event.tick r :: pre, r2, post, num, by simp [he], hf, ?_⟩)
          rw [List.getLast?_append, hl]
          simp only [Option.or_some, List.length_cons]
          congr 2
          omega
      have ht := onTick_waiting p params entry owner name branch r hls hw
      cases hb : r.buildLast with
      | none =>
        rw [hb] at ht
        exact hcont (by rw [ht])
      | some b =>
        rw [hb] at ht
        dsimp only at ht
        by_cases hterm : b.Status ≠ StatusRunning ∧ b.Status ≠ StatusPending
        · rw [if_pos hterm] at ht
          by_cases hf : r.buildFork = true
          · right; right
            rw [pollLoop_tick, ht]
            simp only [hf, if_true]
            exact ⟨trivial, [], r, evs, b.Number, rfl, hf, by simp⟩
          · exact hcont (by rw [ht]; simp [hf])
        · rw [if_neg hterm] at ht
          exact hcont (by rw [ht])

/-- C10. A tick on which BuildFork is called and fails: when the loop has not
waited yet, the run ends at once with the error unable to trigger a new
build and nothing is done for the later repositories; when it has, no error
is returned and the run goes on in the same repository and the same state
with the next event. The flag is only ever raised with Wait set; on a
validated configuration in that state every later tick whose latest build is
neither running nor pending calls BuildFork again, and the loop can end only
by the timeout or by a break right after a BuildFork that succeeded. -/
theorem buildFork_failure_rule (p : Plugin) (params : ParamMap)
    (entry owner name branch : String) (more : List String) :
    (∀ (waiting : Bool) (seen : Nat) (r : Remote) (rest : List Event),
      r.buildFork = false →
      (∃ num, DroneCall.buildFork owner name num params ∈
        (onTick p params entry owner name branch waiting r).2) →
      runFrom p params entry owner name branch more waiting seen (Event.tick r :: rest) =
        if waiting = true then
          ⟨(runFrom p params entry owner name branch more true (seen + 1) rest).outcome,
           (onTick p params entry owner name branch waiting r).2.map (Obs.drone seen) ++
             (runFrom p params entry owner name branch more true (seen + 1) rest).trace⟩
        else
          ⟨Outcome.err (Error.triggerFailed entry),
           (onTick p params entry owner name branch waiting r).2.map (Obs.drone seen)⟩) ∧
    (∀ r : Remote, (onTick p params entry owner name branch false r).1 = Step.next true →
      p.Wait = true) ∧
    (validate p = none → p.Wait = true →
      (∀ (r : Remote) (b : Build), r.buildLast = some b →
        b.Status ≠ StatusRunning → b.Status ≠ StatusPending →
        (onTick p params entry owner name branch true r).2 =
          [DroneCall.buildLast owner name branch,
           DroneCall.buildFork owner name b.Number params]) ∧
      (∀ (seen : Nat) (evs : List Event),
        (pollLoop p params entry owner name branch true seen evs).exit = Exit.polling ∨
        (pollLoop p params entry owner name branch true seen evs).exit
          = Exit.ret (Error.timedOut entry) ∨
        ((pollLoop p params entry owner name branch true seen evs).exit = Exit.brk ∧
          ∃ pre r post num, evs = pre ++ Event.tick r :: post ∧ r.buildFork = true ∧
            (pollLoop p params entry owner name branch true seen evs).trace.getLast? =
              some (Obs.drone (seen + pre.length)
                (DroneCall.buildFork owner name num params))))) := by
  refine ⟨?_, ?_, ?_⟩
  · intro waiting seen r rest hfail hatt
    rw [runFrom_tick, onTick_fork_step p params entry owner name branch waiting r hatt]
    cases waiting <;> simp [hfail]
  · exact fun r h => onTick_raises_flag p params entry owner name branch r h
  · intro hv hw
    have hls : p.LastSuccessful = false := by
      have := validate_none_flags p hv
      cases h : p.LastSuccessful
      · rfl
      · exact absurd ⟨hw, h⟩ this
    refine ⟨?_, fun seen evs => pollLoop_waiting_exits p params entry owner name branch hls hw evs seen⟩
    intro r b hb h1 h2
    rw [onTick_waiting p params entry owner name branch r hls hw, hb]
    simp [h1, h2]

/-- C4, as the code has it. In LastSuccessful mode, on a tick whose latest
build is not a success and whose history list was returned, the build forked
is the first entry of the list, in list order, that is on the branch of the
repository entry and has status success; when the fork succeeds the run goes
on with the next repository. When the list has no successful entry on that
branch, the run ends with the error unable to get last successful build,
after the two lookups and without a fork. -/
theorem lastSuccessful_first_on_branch (p : Plugin) (params : ParamMap)
    (entry owner name branch : String) (more : List String) (seen : Nat) (r : Remote)
    (rest : List Event) (b : Build) (builds : List Build)
    (hv : validate p = none) (hls : p.LastSuccessful = true)
    (hparse : parseRepoBranch entry = (owner, name, branch))
    (ho : owner ≠ "") (hn : name ≠ "")
    (hlast : r.buildLast = some b) (hns : b.Status ≠ StatusSuccess)
    (hlist : r.buildList = some builds) :
    (∀ (pre : List Build) (chosen : Build) (post : List Build),
      builds = pre ++ chosen :: post →
      (∀ x ∈ pre, ¬ (x.Branch = branch ∧ x.Status = StatusSuccess)) →
      chosen.Branch = branch → chosen.Status = StatusSuccess →
      runRepos p params (entry :: more) seen (Event.tick r :: rest) =
        if r.buildFork = true then
          ⟨(runRepos p params more (seen + 1) rest).outcome,
           [Obs.drone seen (DroneCall.buildLast owner name branch),
            Obs.drone seen (DroneCall.buildList owner name),
            Obs.drone seen (DroneCall.buildFork owner name chosen.Number params)] ++
             (runRepos p params more (seen + 1) rest).trace⟩
        else
          ⟨Outcome.err (Error.triggerFailed entry),
           [Obs.drone seen (DroneCall.buildLast owner name branch),
            Obs.drone seen (DroneCall.buildList owner name),
            Obs.drone seen (DroneCall.buildFork owner name chosen.Number params)]⟩) ∧
    ((∀ x ∈ builds, ¬ (x.Branch = branch ∧ x.Status = StatusSuccess)) →
      runRepos p params (entry :: more) seen (Event.tick r :: rest) =
        ⟨Outcome.err (Error.noLastSuccessful entry),
         [Obs.drone seen (DroneCall.buildLast owner name branch),
          Obs.drone seen (DroneCall.buildList owner name)]⟩) := by
  have hw : p.Wait = false := by
    have := validate_none_flags p hv
    cases h : p.Wait
    · rfl
    · exact absurd ⟨h, hls⟩ this
  rw [runRepos_cons p params entry owner name branch more seen _ hparse ho hn, runFrom_tick]
  constructor
  · intro pre chosen post hb hpre hc1 hc2
    have hfind : builds.find?
        (fun b => decide (b.Branch = branch) && decide (b.Status = StatusSuccess))
        = some chosen := by
      rw [List.find?_eq_some]
      refine ⟨by simp [hc1, hc2], pre, post, hb, ?_⟩
      intro x hx
      have := hpre x hx
      by_cases hx1 : x.Branch = branch
      · have hx2 : ¬ x.Status = StatusSuccess := fun e => this ⟨hx1, e⟩
        simp [hx2]
      · simp [hx1]
    have hstep : onTick p params entry owner name branch false r =
        (if r.buildFork = true then Step.brk else Step.ret (Error.triggerFailed entry),
         [DroneCall.buildLast owner name branch, DroneCall.buildList owner name,
          DroneCall.buildFork owner name chosen.Number params]) := by
      simp [onTick, forkStage, hlast, hw, hls, hns, hlist, hfind]
    rw [hstep]
    cases r.buildFork <;> simp
  · intro hnone
    have hfind : builds.find?
        (fun b => decide (b.Branch = branch) && decide (b.Status = StatusSuccess))
        = none := by
      rw [List.find?_eq_none]
      intro x hx
      have := hnone x hx
      by_cases hx1 : x.Branch = branch
      · have hx2 : ¬ x.Status = StatusSuccess := fun e => this ⟨hx1, e⟩
        simp [hx2]
      · simp [hx1]
    have hstep : onTick p params entry owner name branch false r =
        (Step.ret (Error.noLastSuccessful entry),
         [DroneCall.buildLast owner name branch, DroneCall.buildList owner name]) := by
      simp [onTick, hlast, hw, hls, hns, hlist, hfind]
    rw [hstep]
    rfl

/-- C4, counterexample. For the entry octo/app@dev, a failed latest build and
the history [5 failure dev, 7 success master, 9 success dev], the first entry
of the list with status success is build 7, and the build the code forks is
build 9. -/
theorem lastSuccessful_not_first_success :
    mixedHistory.find? (fun b => decide (b.Status = StatusSuccess))
      = some ⟨7, "success", "master"⟩ ∧
    runRepos lastSuccessfulPlugin [] ["octo/app@dev"] 0 [Event.tick failedLatestTick] =
      ⟨Outcome.ok,
       [Obs.drone 0 (DroneCall.buildLast "octo" "app" "dev"),
        Obs.drone 0 (DroneCall.buildList "octo" "app"),
        Obs.drone 0 (DroneCall.buildFork "octo" "app" 9 [])]⟩ := by
  decide

/-! ## Wait mode -/

theorem onTick_fork_terminal (p : Plugin) (params : ParamMap) (entry owner name branch : String)
    (waiting : Bool) (r : Remote) (hw : p.Wait = true) (hls : p.LastSuccessful = false)
    (owner2 name2 : String) (num : Int) (ps : ParamMap)
    (h : DroneCall.buildFork owner2 name2 num ps ∈
      (onTick p params entry owner name branch waiting r).2) :
    ∃ b, r.buildLast = some b ∧ b.Status ≠ StatusRunning ∧ b.Status ≠ StatusPending ∧
      b.Number = num := by
  revert h
  unfold onTick forkStage
  cases hb : r.buildLast with
  | none => simp
  | some b =>
    simp only [hw, hls]
    by_cases h1 : b.Status = StatusRunning
    · cases waiting <;> simp [h1]
    · by_cases h2 : b.Status = StatusPending
      · cases waiting <;> simp [h2]
      · cases waiting <;> simp [h1, h2]
        all_goals (intro _ _ hn _; exact hn.symm)

theorem pollLoop_trace_mem (p : Plugin) (params : ParamMap) (entry owner name branch : String)
    (evs : List Event) :
    ∀ (waiting : Bool) (seen : Nat) (o : Obs),
      o ∈ (pollLoop p params entry owner name branch waiting seen evs).trace →
      ∃ i r waiting2 c, o = Obs.drone (seen + i) c ∧ evs[i]? = some (Event.tick r) ∧
        c ∈ (onTick p params entry owner name branch waiting2 r).2 := by
  induction evs with
  | nil => intro waiting seen o h; simp [pollLoop] at h
  | cons ev evs ih =>
    intro waiting seen o h
    cases ev with
    | timeout => simp [pollLoop] at h
    | tick r =>
      rw [pollLoop_tick] at h
      have hhere : o ∈ (onTick p params entry owner name branch waiting r).2.map (Obs.drone seen) →
          ∃ i r2 waiting2 c, o = Obs.drone (seen + i) c ∧
            (Event.tick r :: evs)[i]? = some (Event.tick r2) ∧
            c ∈ (onTick p params entry owner name branch waiting2 r2).2 := by
        intro hm
        obtain ⟨c, hc, rfl⟩ := List.mem_map.mp hm
        exact ⟨0, r, waiting, c, rfl, by simp, hc⟩
      cases hs : (onTick p params entry owner name branch waiting r).1 with
      | next waiting2 =>
        simp only [hs, List.mem_append] at h
        rcases h with h | h
        · exact hhere h
        · obtain ⟨i, r2, w2, c, ho, he, hc⟩ := ih waiting2 (seen + 1) o h
          refine ⟨i + 1, r2, w2, c, ?_, by simpa using he, hc⟩
          rw [ho]
          congr 1
          omega
      | brk =>
        simp only [hs] at h
        exact hhere h
      | ret e =>
        simp only [hs] at h
        exact hhere h

theorem pollLoop_rest (p : Plugin) (params : ParamMap) (entry owner name branch : String)
    (evs : List Event) :
    ∀ (waiting : Bool) (seen : Nat),
      ∃ k, (pollLoop p params entry owner name branch waiting seen evs).seen = seen + k ∧
        (pollLoop p params entry owner name branch waiting seen evs).rest = evs.drop k := by
  induction evs with
  | nil => intro waiting seen; exact ⟨0, rfl, rfl⟩
  | cons ev evs ih =>
    intro waiting seen
    cases ev with
    | timeout => exact ⟨1, rfl, rfl⟩
    | tick r =>
      rw [pollLoop_tick]
      cases hs : (onTick p params entry owner name branch waiting r).1 with
      | next waiting2 =>
        obtain ⟨k, h1, h2⟩ := ih waiting2 (seen + 1)
        exact ⟨k + 1, by simp only [h1]; omega, by simp only [h2, List.drop_succ_cons]⟩
      | brk => exact ⟨1, rfl, rfl⟩
      | ret e => exact ⟨1, rfl, rfl⟩

theorem runRepos_fork_mem (p : Plugin) (params : ParamMap)
    (hw : p.Wait = true) (hls : p.LastSuccessful = false) (repos : List String) :
    ∀ (seen : Nat) (evs : List Event) (j : Nat) (owner name : String) (num : Int) (ps : ParamMap),
      Obs.drone j (DroneCall.buildFork owner name num ps) ∈ (runRepos p params repos seen evs).trace →
      ∃ i r b, j = seen + i ∧ evs[i]? = some (Event.tick r) ∧ r.buildLast = some b ∧
        b.Status ≠ StatusRunning ∧ b.Status ≠ StatusPending ∧ b.Number = num := by
  induction repos with
  | nil => intro seen evs j owner name num ps h; simp [runRepos] at h
  | cons entry more ih =>
    intro seen evs j owner name num ps h
    have hloop : ∀ (o n br : String),
        Obs.drone j (DroneCall.buildFork owner name num ps) ∈
          (pollLoop p params entry o n br false seen evs).trace →
        ∃ i r b, j = seen + i ∧ evs[i]? = some (Event.tick r) ∧ r.buildLast = some b ∧
          b.Status ≠ StatusRunning ∧ b.Status ≠ StatusPending ∧ b.Number = num := by
      intro o n br hm
      obtain ⟨i, r, w2, c, ho, he, hc⟩ := pollLoop_trace_mem p params entry o n br evs false seen _ hm
      simp only [Obs.drone.injEq] at ho
      obtain ⟨hj, hc2⟩ := ho
      rw [← hc2] at hc
      obtain ⟨b, hb⟩ := onTick_fork_terminal p params entry o n br w2 r hw hls owner name num ps hc
      exact ⟨i, r, b, hj, he, hb⟩
    simp only [runRepos] at h
    split at h
    · simp at h
    · split at h
      · rename_i hexit
        simp only [List.mem_append] at h
        rcases h with h | h
        · exact hloop _ _ _ h
        · obtain ⟨k, hk1, hk2⟩ := pollLoop_rest p params entry (parseRepoBranch entry).1
            (parseRepoBranch entry).2.1 (parseRepoBranch entry).2.2 evs false seen
          rw [hk1, hk2] at h
          obtain ⟨i, r, b, hj, he, hb⟩ := ih _ _ j owner name num ps h
          refine ⟨k + i, r, b, by omega, ?_, hb⟩
          rw [← he, List.getElem?_drop]
      · exact hloop _ _ _ h
      · exact hloop _ _ _ h

theorem populateLoop_no_drone (p : Plugin) (w : World) (fuel : Nat) :
    ∀ (page maxPage : Int) (repos : List String) (j : Nat) (c : DroneCall),
      Obs.drone j c ∉ (populateLoop p w fuel page maxPage repos).trace := by
  have hwait : ∀ (resp : Option Response) (now : Int) (j : Nat) (c : DroneCall),
      Obs.drone j c ∉ waitObs resp now := by
    intro resp now j c
    unfold waitObs
    cases wait resp now <;> simp
  induction fuel with
  | zero =>
    intro page maxPage repos j c
    simp only [populateLoop]
    split <;> simp
  | succ fuel ih =>
    intro page maxPage repos j c
    simp only [populateLoop]
    split
    · split
      · simp [hwait]
      · simp [hwait, ih]
    · simp

theorem forksAt_append (i : Nat) (a b : List Obs) :
    forksAt i (a ++ b) = forksAt i a ++ forksAt i b := by
  simp [forksAt, List.filterMap_append]

theorem forksAt_pollLoop_earlier (p : Plugin) (params : ParamMap)
    (entry owner name branch : String) (waiting : Bool) (seen : Nat) (evs : List Event)
    (i : Nat) (hi : i < seen) :
    forksAt i (pollLoop p params entry owner name branch waiting seen evs).trace = [] := by
  unfold forksAt
  rw [List.filterMap_eq_nil_iff]
  intro o ho
  obtain ⟨k, r, w2, c, rfl, _, _⟩ :=
    pollLoop_trace_mem p params entry owner name branch evs waiting seen o ho
  have hne : ¬ seen + k = i := by omega
  cases c <;> simp [hne]

/-- C3. With Wait set, every BuildFork of a run is issued on a tick whose
BuildLast answered a build that is neither running nor pending, and it forks
that build. On a validated configuration, when the first three ticks of a
repository observe running, running, success, the loop issues BuildLast on
each of them, no BuildFork on the first two and exactly one BuildFork on the
third, for the build observed there. -/
theorem wait_forks_only_terminal (p : Plugin) (hw : p.Wait = true) :
    (∀ (w : World) (fuel : Nat) (j : Nat) (owner name : String) (num : Int) (ps : ParamMap),
      Obs.drone j (DroneCall.buildFork owner name num ps) ∈ (Exec p w fuel).trace →
      ∃ r b, w.events[j]? = some (Event.tick r) ∧ r.buildLast = some b ∧
        b.Status ≠ StatusRunning ∧ b.Status ≠ StatusPending ∧ b.Number = num) ∧
    (validate p = none →
      ∀ (params : ParamMap) (entry owner name branch : String) (seen : Nat)
        (r1 r2 r3 : Remote) (b1 b2 b3 : Build) (rest : List Event),
        r1.buildLast = some b1 → b1.Status = StatusRunning →
        r2.buildLast = some b2 → b2.Status = StatusRunning →
        r3.buildLast = some b3 → b3.Status = StatusSuccess →
        (pollLoop p params entry owner name branch false seen
            (Event.tick r1 :: Event.tick r2 :: Event.tick r3 :: rest)).trace.take 4 =
          [Obs.drone seen (DroneCall.buildLast owner name branch),
           Obs.drone (seen + 1) (DroneCall.buildLast owner name branch),
           Obs.drone (seen + 2) (DroneCall.buildLast owner name branch),
           Obs.drone (seen + 2) (DroneCall.buildFork owner name b3.Number params)] ∧
        forksAt seen (pollLoop p params entry owner name branch false seen
            (Event.tick r1 :: Event.tick r2 :: Event.tick r3 :: rest)).trace = [] ∧
        forksAt (seen + 1) (pollLoop p params entry owner name branch false seen
            (Event.tick r1 :: Event.tick r2 :: Event.tick r3 :: rest)).trace = [] ∧
        forksAt (seen + 2) (pollLoop p params entry owner name branch false seen
            (Event.tick r1 :: Event.tick r2 :: Event.tick r3 :: rest)).trace = [b3.Number]) := by
  constructor
  · intro w fuel j owner name num ps h
    unfold Exec at h
    cases hv : validate p with
    | some e => simp [hv] at h
    | none =>
      have hls : p.LastSuccessful = false := by
        have := validate_none_flags p hv
        cases h2 : p.LastSuccessful
        · rfl
        · exact absurd ⟨hw, h2⟩ this
      simp only [hv] at h
      cases hb : buildParams p w with
      | error e => simp [hb] at h
      | ok params =>
        simp only [hb] at h
        have hpop := populateLoop_no_drone p w fuel 1 MaxInt32 p.Repos j
          (DroneCall.buildFork owner name num ps)
        cases hst : (populateGithubRepos p w fuel).status with
        | fatal =>
          simp only [hst] at h
          exact absurd h hpop
        | outOfFuel =>
          simp only [hst] at h
          exact absurd h hpop
        | done =>
          simp only [hst, List.mem_append] at h
          rcases h with h | h
          · exact absurd h hpop
          · obtain ⟨i, r, b, hj, he, hrest⟩ :=
              runRepos_fork_mem p params hw hls _ 0 w.events j owner name num ps h
            have : j = i := by omega
            subst this
            exact ⟨r, b, he, hrest⟩
  · intro hv params entry owner name branch seen r1 r2 r3 b1 b2 b3 rest h1 s1 h2 s2 h3 s3
    have hls : p.LastSuccessful = false := by
      have := validate_none_flags p hv
      cases h : p.LastSuccessful
      · rfl
      · exact absurd ⟨hw, h⟩ this
    have t1 : onTick p params entry owner name branch false r1 =
        (Step.next true, [DroneCall.buildLast owner name branch]) := by
      simp [onTick, h1, hw, s1]
    have t2 : onTick p params entry owner name branch true r2 =
        (Step.next true, [DroneCall.buildLast owner name branch]) := by
      rw [onTick_waiting p params entry owner name branch r2 hls hw, h2]
      simp [s2]
    have t3 : onTick p params entry owner name branch true r3 =
        (if r3.buildFork = true then Step.brk else Step.next true,
         [DroneCall.buildLast owner name branch,
          DroneCall.buildFork owner name b3.Number params]) := by
      rw [onTick_waiting p params entry owner name branch r3 hls hw, h3]
      simp [s3, StatusSuccess, StatusRunning, StatusPending]
    have htrace : (pollLoop p params entry owner name branch false seen
          (Event.tick r1 :: Event.tick r2 :: Event.tick r3 :: rest)).trace =
        [Obs.drone seen (DroneCall.buildLast owner name branch),
         Obs.drone (seen + 1) (DroneCall.buildLast owner name branch),
         Obs.drone (seen + 2) (DroneCall.buildLast owner name branch),
         Obs.drone (seen + 2) (DroneCall.buildFork owner name b3.Number params)] ++
        (if r3.buildFork = true then []
          else (pollLoop p params entry owner name branch true (seen + 3) rest).trace) := by
      rw [pollLoop_tick, t1]
      simp only
      rw [pollLoop_tick, t2]
      simp only
      rw [pollLoop_tick, t3]
      cases r3.buildFork <;> simp
    have htail : ∀ i, i < seen + 3 →
        forksAt i (if r3.buildFork = true then []
          else (pollLoop p params entry owner name branch true (seen + 3) rest).trace) = [] := by
      intro i hi
      cases r3.buildFork
      · simpa using forksAt_pollLoop_earlier p params entry owner name branch true (seen + 3) rest i hi
      · rfl
    rw [htrace]
    refine ⟨by simp, ?_, ?_, ?_⟩
    · rw [forksAt_append, htail seen (by omega)]
      simp [forksAt]
    · rw [forksAt_append, htail (seen + 1) (by omega)]
      simp [forksAt]
    · rw [forksAt_append, htail (seen + 2) (by omega)]
      simp [forksAt]

/-! ## Instances -/

theorem wait_forks_only_terminal_witness :
    Exec waitPlugin waitWorld 1 =
      ⟨Outcome.ok,
       [Obs.search 1,
        Obs.drone 0 (DroneCall.buildLast "octo" "app" ""),
        Obs.drone 1 (DroneCall.buildLast "octo" "app" ""),
        Obs.drone 2 (DroneCall.buildLast "octo" "app" ""),
        Obs.drone 2 (DroneCall.buildFork "octo" "app" 12 [])]⟩ ∧
    (∃ r b, waitWorld.events[2]? = some (Event.tick r) ∧ r.buildLast = some b ∧
      b.Status ≠ StatusRunning ∧ b.Status ≠ StatusPending ∧ b.Number = 12) ∧
    forksAt 2 (pollLoop waitPlugin [] "octo/app" "octo" "app" "" false 0
      [Event.tick runningTick, Event.tick runningTick, Event.tick successTick]).trace = [12] :=
  ⟨by decide,
   (wait_forks_only_terminal waitPlugin rfl).1 waitWorld 1 2 "octo" "app" 12 [] (by decide),
   ((wait_forks_only_terminal waitPlugin rfl).2 (by decide) [] "octo/app" "octo" "app" "" 0
      runningTick runningTick successTick ⟨12, "running", "master"⟩ ⟨12, "running", "master"⟩
      ⟨12, "success", "master"⟩ [] rfl rfl rfl rfl rfl rfl).2.2.2⟩

theorem lastSuccessful_first_on_branch_witness :
    runRepos lastSuccessfulPlugin [] ["octo/app@dev"] 0 [Event.tick failedLatestTick] =
      ⟨Outcome.ok,
       [Obs.drone 0 (DroneCall.buildLast "octo" "app" "dev"),
        Obs.drone 0 (DroneCall.buildList "octo" "app"),
        Obs.drone 0 (DroneCall.buildFork "octo" "app" 9 [])]⟩ :=
  Eq.trans
    ((lastSuccessful_first_on_branch lastSuccessfulPlugin [] "octo/app@dev" "octo" "app" "dev"
      [] 0 failedLatestTick [] ⟨10, "failure", "dev"⟩ mixedHistory (by decide) rfl (by decide)
      (by decide) (by decide) rfl (by decide) rfl).1
      [⟨5, "failure", "dev"⟩, ⟨7, "success", "master"⟩] ⟨9, "success", "dev"⟩ [] rfl
      (by decide) rfl rfl)
    (by decide)

theorem timeout_iff_before_decision_witness :
    (pollLoop waitPlugin [] "octo/app" "octo" "app" "" false 0
      [Event.tick runningTick, Event.timeout, Event.tick successTick]).exit
        = Exit.ret (Error.timedOut "octo/app") ∧
    runFrom waitPlugin [] "octo/app" "octo" "app" "" ["octo/lib"] false 0
      [Event.tick runningTick, Event.timeout, Event.tick successTick] =
        ⟨Outcome.err (Error.timedOut "octo/app"),
         [Obs.drone 0 (DroneCall.buildLast "octo" "app" "")]⟩ :=
  ⟨(timeout_iff_before_decision waitPlugin [] "octo/app" "octo" "app" "" ["octo/lib"] false 0
      [Event.tick runningTick, Event.timeout, Event.tick successTick]).1.mpr
      ⟨[Event.tick runningTick], [Event.tick successTick], rfl, by decide⟩,
   Eq.trans
    ((timeout_iff_before_decision waitPlugin [] "octo/app" "octo" "app" "" ["octo/lib"] false 0
      [Event.tick runningTick, Event.timeout, Event.tick successTick]).2
      [Event.tick runningTick] [Event.tick successTick] rfl (by decide))
    (by decide)⟩

theorem buildLast_failure_rule_witness :
    runFrom ignoreMissingPlugin [] "octo/app" "octo" "app" "" ["octo/lib"] false 0
      [Event.tick lookupFailsTick, Event.tick successTick] =
        ⟨Outcome.ok,
         [Obs.drone 0 (DroneCall.buildLast "octo" "app" ""),
          Obs.drone 1 (DroneCall.buildLast "octo" "lib" ""),
          Obs.drone 1 (DroneCall.buildFork "octo" "lib" 12 [])]⟩ :=
  Eq.trans
    (buildLast_failure_rule ignoreMissingPlugin [] "octo/app" "octo" "app" "" ["octo/lib"]
      false 0 lookupFailsTick [Event.tick successTick] rfl)
    (by decide)

theorem buildFork_failure_rule_witness :
    runFrom waitPlugin [] "octo/app" "octo" "app" "" ["octo/lib"] true 0
      [Event.tick forkFailsTick, Event.tick successTick] =
        ⟨Outcome.running,
         [Obs.drone 0 (DroneCall.buildLast "octo" "app" ""),
          Obs.drone 0 (DroneCall.buildFork "octo" "app" 12 []),
          Obs.drone 1 (DroneCall.buildLast "octo" "app" ""),
          Obs.drone 1 (DroneCall.buildFork "octo" "app" 12 [])]⟩ ∧
    runFrom waitPlugin [] "octo/app" "octo" "app" "" ["octo/lib"] false 0
      [Event.tick forkFailsTick, Event.tick successTick] =
        ⟨Outcome.err (Error.triggerFailed "octo/app"),
         [Obs.drone 0 (DroneCall.buildLast "octo" "app" ""),
          Obs.drone 0 (DroneCall.buildFork "octo" "app" 12 [])]⟩ :=
  ⟨Eq.trans
    ((buildFork_failure_rule waitPlugin [] "octo/app" "octo" "app" "" ["octo/lib"]).1 true 0
      forkFailsTick [Event.tick successTick] rfl ⟨12, by decide⟩)
    (by decide),
   Eq.trans
    ((buildFork_failure_rule waitPlugin [] "octo/app" "octo" "app" "" ["octo/lib"]).1 false 0
      forkFailsTick [Event.tick successTick] rfl ⟨12, by decide⟩)
    (by decide)⟩

/-! ## The pager and the rate limit -/

theorem search_not_mem_waitObs (response : Option Response) (now : Int) (pg : Int) :
    Obs.search pg ∉ waitObs response now := by
  unfold waitObs
  cases wait response now <;> simp

theorem populateLoop_trace_head (p : Plugin) (w : World) (fuel : Nat) (page maxPage : Int)
    (repos : List String) :
    (populateLoop p w fuel page maxPage repos).trace = [] ∨
      ∃ tail, (populateLoop p w fuel page maxPage repos).trace = Obs.search page :: tail := by
  cases fuel with
  | zero =>
    left
    simp only [populateLoop]
    split <;> rfl
  | succ fuel =>
    simp only [populateLoop]
    split
    · right
      split
      · exact ⟨_, rfl⟩
      · exact ⟨_, rfl⟩
    · left; rfl

theorem populateLoop_search_then_wait (p : Plugin) (w : World) (fuel : Nat) :
    ∀ (page maxPage : Int) (repos : List String) (pre : List Obs) (pg : Int) (post : List Obs),
      (populateLoop p w fuel page maxPage repos).trace = pre ++ Obs.search pg :: post →
      ∃ tail, post = waitObs (w.search pg).response (w.now pg) ++ tail ∧
        (tail = [] ∨ ∃ pg2 tail2, tail = Obs.search pg2 :: tail2) := by
  induction fuel with
  | zero =>
    intro page maxPage repos pre pg post h
    simp only [populateLoop] at h
    split at h <;> simp at h
  | succ fuel ih =>
    intro page maxPage repos pre pg post h
    simp only [populateLoop] at h
    split at h
    · split at h
      · rename_i response hs
        simp only at h
        cases pre with
        | nil =>
          simp only [List.nil_append, List.cons.injEq, Obs.search.injEq] at h
          obtain ⟨hpg, hpost⟩ := h
          subst hpg
          exact ⟨[], by simp [hs, SearchReply.response, ← hpost], Or.inl rfl⟩
        | cons x pre2 =>
          simp only [List.cons_append, List.cons.injEq] at h
          have hmem : Obs.search pg ∈ waitObs response (w.now page) := by
            rw [h.2]
            simp
          exact absurd hmem (search_not_mem_waitObs _ _ _)
      · rename_i fullNames response hs
        simp only at h
        cases pre with
        | nil =>
          simp only [List.nil_append, List.cons.injEq, Obs.search.injEq] at h
          obtain ⟨hpg, hpost⟩ := h
          subst hpg
          refine ⟨_, by rw [← hpost, hs]; rfl, ?_⟩
          rcases populateLoop_trace_head p w fuel (page + 1) response.LastPage
            (repos ++ fullNames.map (repoName p)) with h0 | ⟨t, ht⟩
          · exact Or.inl h0
          · exact Or.inr ⟨_, t, ht⟩
        | cons x pre2 =>
          simp only [List.cons_append, List.cons.injEq] at h
          obtain ⟨_, h⟩ := h
          rcases List.append_eq_append_iff.mp h with ⟨a, _, ha⟩ | ⟨c, hc, hc2⟩
          · exact ih _ _ _ a pg post ha
          · cases c with
            | nil =>
              simp only [List.nil_append] at hc2
              exact ih _ _ _ [] pg post hc2.symm
            | cons y c2 =>
              simp only [List.cons_append, List.cons.injEq] at hc2
              have hmem : Obs.search pg ∈ waitObs (some response) (w.now page) := by
                rw [hc, ← hc2.1]
                simp
              exact absurd hmem (search_not_mem_waitObs _ _ _)
    · simp at h

/-- C7, as the code has it. In every run of the pager, a page request whose
response has Remaining at most 1 and whose distance to the reset time, in
nanoseconds, fits a signed 64 bit duration is followed at once, before any
further request, by a sleep of exactly |r - n| seconds; a request whose
response is absent or has Remaining above 1 is not followed by a sleep. For
wait itself: in that range it sleeps |r - n| seconds, a non-negative
duration that ends at or after the reset time; without a response, or with
Remaining above 1, it does not sleep, whatever the times. -/
theorem pager_sleeps_until_reset (p : Plugin) (w : World) (fuel : Nat) :
    (∀ (pre : List Obs) (pg : Int) (post : List Obs) (resp : Response),
      (populateGithubRepos p w fuel).trace = pre ++ Obs.search pg :: post →
      (w.search pg).response = some resp → resp.Remaining ≤ 1 →
      |resp.Reset - w.now pg| * Second < 2 ^ 63 →
      ∃ tail, post = Obs.sleep (|resp.Reset - w.now pg| * Second) :: tail) ∧
    (∀ (pre : List Obs) (pg : Int) (post : List Obs),
      (populateGithubRepos p w fuel).trace = pre ++ Obs.search pg :: post →
      ((w.search pg).response = none ∨
        ∃ resp, (w.search pg).response = some resp ∧ 1 < resp.Remaining) →
      ∀ (ns : Int) (tail : List Obs), post ≠ Obs.sleep ns :: tail) ∧
    (∀ (resp : Response) (now : Int), resp.Remaining ≤ 1 →
      |resp.Reset - now| * Second < 2 ^ 63 →
      wait (some resp) now = some (|resp.Reset - now| * Second) ∧
      0 ≤ |resp.Reset - now| * Second ∧
      resp.Reset * Second ≤ now * Second + |resp.Reset - now| * Second) ∧
    (∀ (resp : Response) (now : Int), 1 < resp.Remaining → wait (some resp) now = none) ∧
    (∀ now : Int, wait none now = none) := by
  refine ⟨?_, ?_, wait_in_range, wait_above_one, fun _ => rfl⟩
  · intro pre pg post resp h hresp hr hgap
    obtain ⟨tail, ht, _⟩ := populateLoop_search_then_wait p w fuel 1 MaxInt32 p.Repos pre pg post h
    refine ⟨tail, ?_⟩
    rw [ht, hresp]
    simp [waitObs, (wait_in_range resp (w.now pg) hr hgap).1]
  · intro pre pg post h hcase ns tail hpost
    obtain ⟨tail2, ht, hhead⟩ :=
      populateLoop_search_then_wait p w fuel 1 MaxInt32 p.Repos pre pg post h
    have hw : waitObs (w.search pg).response (w.now pg) = [] := by
      rcases hcase with h0 | ⟨resp, h1, h2⟩
      · rw [h0]; rfl
      · rw [h1]
        simp [waitObs, wait_above_one resp (w.now pg) h2]
    rw [hw, List.nil_append] at ht
    rw [ht] at hpost
    rcases hhead with h0 | ⟨pg2, t2, h2⟩
    · rw [h0] at hpost
      simp at hpost
    · rw [h2] at hpost
      simp at hpost

theorem pager_sleeps_until_reset_witness :
    (populateGithubRepos branchPlugin rateLimitedWorld 2).trace =
      [Obs.search 1, Obs.sleep 60000000000, Obs.search 2] ∧
    (∃ tail, [Obs.sleep 60000000000, Obs.search 2] =
      Obs.sleep (|(⟨0, 1700000060, 2⟩ : Response).Reset - rateLimitedWorld.now 1| * Second)
        :: tail) ∧
    (∀ (ns : Int) (tail : List Obs), ([] : List Obs) ≠ Obs.sleep ns :: tail) :=
  ⟨by decide,
   (pager_sleeps_until_reset branchPlugin rateLimitedWorld 2).1 [] 1
     [Obs.sleep 60000000000, Obs.search 2] ⟨0, 1700000060, 2⟩ (by decide) (by decide)
     (by decide) (by decide),
   (pager_sleeps_until_reset branchPlugin rateLimitedWorld 2).2.1
     [Obs.search 1, Obs.sleep 60000000000] 2 [] (by decide)
     (Or.inr ⟨⟨30, 1700000060, 0⟩, by decide, by decide⟩)⟩

end Downstream
